import Mathlib

/-!
Verification of the flashnotes persistence engine (src-tauri/src/db and
src-tauri/src/commands) against its specification.

The Rust code is shallowly embedded: the database is a list of buffer rows
plus the FTS5 shadow-index entries maintained by the schema's triggers
(src/db/schema.rs); each query in src/db/queries.rs becomes a Lean function
on that state; the Tauri commands in src/commands/buffer.rs become functions
returning `Except String` results together with the successor state.

Rust `String` values are modelled as Lean `String`; every string operation
the code uses (`str::lines`, `str::trim`, `str::split_whitespace`,
`str::replace`, `chars().take`, `len()` in bytes) is re-implemented by
structural recursion over the character list so that concrete instances
reduce in the kernel.
-/

/-- Model of Rust `char::is_whitespace` (the Unicode White_Space property). -/
def isWS (c : Char) : Bool :=
  let n := c.toNat
  (0x09 ≤ n && n ≤ 0x0D) || n = 0x20 || n = 0x85 || n = 0xA0 || n = 0x1680 ||
  (0x2000 ≤ n && n ≤ 0x200A) || n = 0x2028 || n = 0x2029 || n = 0x202F ||
  n = 0x205F || n = 0x3000

/-- Model of Rust `str::trim`: drop whitespace from both ends. -/
def trimChars (l : List Char) : List Char :=
  ((l.dropWhile isWS).reverse.dropWhile isWS).reverse

/-- A line is blank when it trims to nothing (Rust `line.trim().is_empty()`). -/
def isBlankL (l : List Char) : Bool :=
  (trimChars l).isEmpty

/-- Split a character list at every character satisfying `p`, keeping empty
chunks (the splitting characters are dropped). -/
def splitPred (p : Char → Bool) : List Char → List (List Char)
  | [] => [[]]
  | c :: cs =>
    match splitPred p cs with
    | [] => [[]]
    | g :: gs => if p c then [] :: g :: gs else (c :: g) :: gs

/-- Drop a single trailing carriage return, as Rust `str::lines` does. -/
def stripCR (l : List Char) : List Char :=
  if l.getLast? = some '\r' then l.dropLast else l

/-- Model of Rust `str::lines`: split on newline, drop the trailing empty
chunk produced by a terminal newline, strip one trailing CR per line. -/
def rustLines (s : List Char) : List (List Char) :=
  let parts := splitPred (fun c => c = '\n') s
  let parts := if parts.getLast? = some [] then parts.dropLast else parts
  parts.map stripCR

/-- Model of Rust `str::split_whitespace`: split on whitespace, discard the
empty chunks. -/
def splitWS (l : List Char) : List (List Char) :=
  (splitPred isWS l).filter (fun g => !g.isEmpty)

/-- UTF-8 encoded size of one character. -/
def csize (c : Char) : Nat :=
  if c.toNat ≤ 0x7F then 1
  else if c.toNat ≤ 0x7FF then 2
  else if c.toNat ≤ 0xFFFF then 3
  else 4

/-- Model of Rust `String::len`: length in UTF-8 bytes. -/
def byteLen (s : String) : Nat :=
  (s.data.map csize).sum

/-- Model of the sanitizer's quote escaping (Rust `str::replace` of one
quote character by two). -/
def escapeQuotes : List Char → List Char
  | [] => []
  | c :: cs => if c = '"' then '"' :: '"' :: escapeQuotes cs else c :: escapeQuotes cs

/-- FTS5 query-syntax rendering of one term: quote it and append the
prefix-wildcard star (the Rust code's per-term quoting). -/
def quoteTerm (t : List Char) : List Char :=
  '"' :: (t ++ ['"', '*'])

/-- Join chunks with single spaces (Rust `Vec::join` of the quoted terms). -/
def joinSp (ls : List (List Char)) : List Char :=
  (List.intersperse [' '] ls).flatten

/-- The sanitized FTS5 query string built by `search_buffers`
(src/db/queries.rs): double internal quotes, split on whitespace, quote each
term with a trailing star, join with spaces. -/
def safeQuery (q : String) : String :=
  String.mk (joinSp ((splitWS (escapeQuotes q.data)).map quoteTerm))

/-- The terms the sanitized query denotes. Quote-doubling happens before the
whitespace split and introduces no whitespace, and FTS5 decodes a doubled
quote inside a quoted string back to one quote, so each quoted chunk of
`safeQuery q` denotes exactly the corresponding whitespace-separated term of
the raw query. -/
def queryTerms (q : String) : List (List Char) :=
  splitWS q.data

/-- Model of the SQLite FTS5 unicode61 tokenizer (external library), at ASCII
granularity: maximal alphanumeric runs, case-folded. -/
def ftsTokens (s : List Char) : List (List Char) :=
  ((splitPred (fun c => !c.isAlphanum) s).filter (fun g => !g.isEmpty)).map
    (fun g => g.map Char.toLower)

/-- One quoted term with the star suffix matches a content when the term is a
case-folded prefix of some token (FTS5 prefix query, external library). -/
def termMatches (content : List Char) (t : List Char) : Bool :=
  (ftsTokens content).any (fun tok => List.isPrefixOf (t.map Char.toLower) tok)

/-- A sanitized query matches a content when every term matches (FTS5
implicit AND). -/
def ftsMatch (terms : List (List Char)) (content : String) : Bool :=
  terms.all (termMatches content.data)

/-- A buffer row (table `buffers`, src/db/schema.rs). `id` is the TEXT
primary key; timestamps are Unix-epoch seconds (i64, overflow unreachable);
the INTEGER flags are modelled as Bool. -/
structure Buffer where
  id : String
  content : String
  created_at : Int
  updated_at : Int
  accessed_at : Int
  is_archived : Bool
  is_pinned : Bool
  sort_order : Int
deriving DecidableEq, Repr

/-- Sidebar summary returned to the UI (src/db/queries.rs). -/
structure BufferSummary where
  id : String
  title : String
  preview : String
  updated_at : Int
  is_pinned : Bool
deriving DecidableEq, Repr

/-- Search result row (src/db/queries.rs). The `highlight()` markup of the
snippet is not modelled; the snippet field carries the indexed content. -/
structure SearchResult where
  id : String
  snippet : String
  updated_at : Int
deriving DecidableEq, Repr

/-- Database state: the `buffers` table in row order, and the `buffers_fts`
shadow index as (rowid, content) entries, with the TEXT primary key standing
in for the rowid (they are in bijection for this schema). -/
structure DB where
  buffers : List Buffer
  fts : List (String × String)
deriving DecidableEq, Repr

/-- The shadow index is in lockstep with the table: its entries are exactly
the (id, content) pairs of the buffer rows, in some order. -/
def ftsSync (db : DB) : Prop :=
  db.fts.Perm (db.buffers.map (fun b => (b.id, b.content)))

/-- The ids of the rows are pairwise distinct (`id TEXT PRIMARY KEY`). -/
def idsNodup (db : DB) : Prop :=
  (db.buffers.map (fun b => b.id)).Nodup

namespace Queries

/-- Port of `extract_title_preview` (src/db/queries.rs lines 35-53): title is
the first non-blank line, trimmed and cut to 100 characters, defaulting to
"Untitled"; preview is the first non-blank line after the title line, same
formatting, defaulting to empty. -/
def fmtLine (l : List Char) : String :=
  String.mk ((trimChars l).take 100)

def extract_title_preview (content : String) : String × String :=
  let lines := rustLines content.data
  let title :=
    ((lines.find? (fun l => !isBlankL l)).map fmtLine).getD ("Untitled")
  let preview :=
    ((((lines.dropWhile isBlankL).drop 1).find? (fun l => !isBlankL l)).map
        fmtLine).getD ("")
  (title, preview)

/-- The sidebar sort key: `ORDER BY is_pinned DESC, sort_order ASC,
accessed_at DESC` — pinned rows rank 0, then ascending sort_order, then
descending accessed_at. -/
def sidebarKey (b : Buffer) : Int × Int × Int :=
  ((if b.is_pinned then 0 else 1), b.sort_order, -b.accessed_at)

def tripleLe (x y : Int × Int × Int) : Bool :=
  x.1 < y.1 || (x.1 = y.1 && (x.2.1 < y.2.1 || (x.2.1 = y.2.1 && x.2.2 ≤ y.2.2)))

def sidebarLe (a b : Buffer) : Bool :=
  tripleLe (sidebarKey a) (sidebarKey b)

/-- Insertion sort, modelling the SQL ORDER BY (tie order among equal keys is
unspecified by SQL; this model fixes one). -/
def insertLe (le : Buffer → Buffer → Bool) (a : Buffer) : List Buffer → List Buffer
  | [] => [a]
  | b :: l => if le a b then a :: b :: l else b :: insertLe le a l

def sortLe (le : Buffer → Buffer → Bool) : List Buffer → List Buffer
  | [] => []
  | a :: l => insertLe le a (sortLe le l)

/-- Summary row built from a buffer, title/preview derived from content. -/
def summarize (b : Buffer) : BufferSummary :=
  let tp := extract_title_preview b.content
  ⟨b.id, tp.1, tp.2, b.updated_at, b.is_pinned⟩

/-- Modelled from the spec: the paging variant of `get_sidebar_buffers` taken
with limit and offset, called as `get_sidebar_buffers(&conn, limit, offset)`
by `get_sidebar_data` (src/commands/buffer.rs line 129) but absent from
src/db/queries.rs, which only holds the limit-only variant (lines 56-85).
The filter, ordering and summary fields follow that limit-only source
function; the offset paging follows the spec's ListSidebar(limit, offset). -/
def get_sidebar_buffers (db : DB) (limit offset : Nat) : List BufferSummary :=
  (((sortLe sidebarLe (db.buffers.filter (fun b => !b.is_archived))).drop
        offset).take limit).map summarize

/-- Port of `search_buffers` (src/db/queries.rs lines 88-122): blank query
short-circuits to no results; otherwise the sanitized query is matched
against the shadow index, joined by rowid to non-archived rows, and the
first `limit` matches are returned. The bm25 relevance ordering
(`ORDER BY rank`) is not modelled; results keep index order. -/
def search_buffers (db : DB) (query : String) (limit : Nat) : List SearchResult :=
  if isBlankL query.data then []
  else
    let terms := queryTerms query
    ((db.fts.filter (fun e => ftsMatch terms e.2)).filterMap (fun e =>
        (db.buffers.find? (fun b => b.id == e.1)).bind (fun b =>
          if b.is_archived then none else some ⟨b.id, e.2, b.updated_at⟩))).take
      limit

/-- Port of `get_buffer_content` (src/db/queries.rs lines 125-151): the row
with the given id, if any. -/
def get_buffer_content (db : DB) (id : String) : Option Buffer :=
  db.buffers.find? (fun b => b.id == id)

/-- SQL `COALESCE(MIN(l), 0)`: the minimum of the list, or 0 when empty. -/
def minOr0 : List Int → Int
  | [] => 0
  | [x] => x
  | x :: y :: l => min x (minOr0 (y :: l))

/-- Port of `create_buffer` (src/db/queries.rs lines 154-172): the new row
gets `sort_order = COALESCE(MIN(sort_order), 0) - 1` taken over the
non-archived rows, and created/updated/accessed stamps equal to `timestamp`;
the after-insert trigger (src/db/schema.rs) appends the shadow entry. -/
def create_buffer (db : DB) (id : String) (content : String) (ts : Int) : DB :=
  let minOrder :=
    minOr0 ((db.buffers.filter (fun b => !b.is_archived)).map
      (fun b => b.sort_order)) - 1
  let row : Buffer := ⟨id, content, ts, ts, ts, false, false, minOrder⟩
  ⟨db.buffers ++ [row], db.fts ++ [(id, content)]⟩

/-- Port of `update_buffer_content` (src/db/queries.rs lines 175-185): set
content and updated_at on the row with the given id; returns whether a row
was affected. The after-update trigger replaces the shadow entry (`id` is
the primary key, so at most one row matches). -/
def update_buffer_content (db : DB) (id content : String) (ts : Int) :
    DB × Bool :=
  match db.buffers.find? (fun b => b.id == id) with
  | none => (db, false)
  | some _ =>
    (⟨db.buffers.map (fun b =>
          if b.id == id then { b with content := content, updated_at := ts } else b),
      db.fts.filter (fun e => !(e.1 == id)) ++ [(id, content)]⟩, true)

/-- Port of `touch_buffer` (src/db/queries.rs lines 188-198): set accessed_at
on the row with the given id. The after-update trigger fires on any UPDATE,
rewriting the shadow entry with the unchanged content. -/
def touch_buffer (db : DB) (id : String) (ts : Int) : DB × Bool :=
  match db.buffers.find? (fun b => b.id == id) with
  | none => (db, false)
  | some b0 =>
    (⟨db.buffers.map (fun b =>
          if b.id == id then { b with accessed_at := ts } else b),
      db.fts.filter (fun e => !(e.1 == id)) ++ [(id, b0.content)]⟩, true)

/-- Port of `get_next_buffer_id` (src/db/queries.rs lines 201-215): the first
row, in sidebar order, among non-archived rows other than the given id. -/
def get_next_buffer_id (db : DB) (current_id : String) : Option String :=
  ((sortLe sidebarLe (db.buffers.filter
      (fun b => !b.is_archived && !(b.id == current_id)))).head?).map
    (fun b => b.id)

/-- Port of `delete_buffer` (src/db/queries.rs lines 218-224): remove the row
with the given id; the after-delete trigger removes its shadow entry. -/
def delete_buffer (db : DB) (id : String) : DB × Bool :=
  (⟨db.buffers.filter (fun b => !(b.id == id)),
    db.fts.filter (fun e => !(e.1 == id))⟩,
   db.buffers.any (fun b => b.id == id))

end Queries

namespace Commands

/-- `MAX_BUFFER_SIZE` (src/commands/buffer.rs line 9): 10 MiB. -/
def MAX_BUFFER_SIZE : Nat := 10 * 1024 * 1024

/-- Hundredths of a mebibyte, rounded to nearest as the Rust
`format ({:.2}, size as f64 / 1048576.0)` renders it (the f64 value of a
byte count below 2^53 is exact; ties at half a hundredth round here upward
rather than to even — unreachable for the sizes this message reports). -/
def mbHundredths (size : Nat) : Nat :=
  (size * 200 + 1048576) / 2097152

def pad2 (n : Nat) : String :=
  if n < 10 then ("0") ++ toString n else toString n

/-- The size-exceeded message of `validate_buffer_size`
(src/commands/buffer.rs lines 22-33), a function of the actual byte size. -/
def sizeErrMsg (size : Nat) : String :=
  ("Buffer content too large (") ++ toString (mbHundredths size / 100) ++
    (".") ++ pad2 (mbHundredths size % 100) ++
    ("MB). Maximum size is 10MB. Consider splitting your note into smaller parts.")

/-- Port of `validate_buffer_size` (src/commands/buffer.rs lines 22-33). -/
def validate_buffer_size (content : String) : Except String Unit :=
  if byteLen content > MAX_BUFFER_SIZE then Except.error (sizeErrMsg (byteLen content))
  else Except.ok ()

/-- Port of the `create_buffer` command (src/commands/buffer.rs lines 36-63):
validate, insert, and return the summary computed from the given content.
The fresh UUID and the clock are inputs of the model. -/
def create_buffer (db : DB) (id : String) (ts : Int) (content : String) :
    Except String BufferSummary × DB :=
  match validate_buffer_size content with
  | Except.error e => (Except.error e, db)
  | Except.ok _ =>
    let db' := Queries.create_buffer db id content ts
    let tp := Queries.extract_title_preview content
    (Except.ok ⟨id, tp.1, tp.2, ts, false⟩, db')

/-- Port of the `save_buffer` command (src/commands/buffer.rs lines 66-78):
validate, update, and return the derived title/preview. The zero-rows-
affected outcome of the update is discarded. -/
def save_buffer (db : DB) (id : String) (content : String) (ts : Int) :
    Except String (String × String) × DB :=
  match validate_buffer_size content with
  | Except.error e => (Except.error e, db)
  | Except.ok _ =>
    let r := Queries.update_buffer_content db id content ts
    (Except.ok (Queries.extract_title_preview content), r.1)

/-- Port of the `get_buffer_content` command (src/commands/buffer.rs lines
82-118): touch accessed_at, then read; absent rows give a not-found error.
Both the reader-pool path and the writer fallback perform these same two
steps against the same committed state. -/
def get_buffer_content (db : DB) (id : String) (ts : Int) :
    Except String String × DB :=
  let r := Queries.touch_buffer db id ts
  match Queries.get_buffer_content r.1 id with
  | some b => (Except.ok b.content, r.1)
  | none => (Except.error (("Buffer not found: ") ++ id), r.1)

/-- Port of the `delete_buffer` command (src/commands/buffer.rs lines
171-187): the replacement id is computed before the delete executes. -/
def delete_buffer (db : DB) (id : String) : Option String × DB :=
  let next := Queries.get_next_buffer_id db id
  let r := Queries.delete_buffer db id
  (next, r.1)

end Commands

/-- The spec's reading of title/preview derivation: among the non-blank
lines, the first gives the title and the second gives the preview, each
trimmed and truncated to 100 characters, with the stated defaults. -/
def spec_title_preview (content : String) : String × String :=
  let nb := (rustLines content.data).filter (fun l => !isBlankL l)
  (((nb.head?).map Queries.fmtLine).getD ("Untitled"),
   ((nb[1]?).map Queries.fmtLine).getD (""))

/-- String doubling, for building a concrete over-limit content. -/
def dblStr (s : String) : String := s ++ s

def dblN : Nat → String → String
  | 0, s => s
  | n + 1, s => dblStr (dblN n s)

/-- A concrete 16 MiB ASCII string (16 characters doubled 20 times). -/
def bigContent : String := dblN 20 ("aaaaaaaaaaaaaaaa")

/-- Concrete rows and states used to instantiate the theorems. -/
def bw1 : Buffer := ⟨("a"), ("alpha notes"), 0, 0, 5, false, false, 0⟩

def bw2 : Buffer := ⟨("b"), ("beta news"), 0, 0, 3, false, true, 1⟩

def bwArch : Buffer := ⟨("z"), ("old"), 0, 0, 0, true, false, -5⟩

def dbW : DB :=
  ⟨[bw1, bw2], [(("a"), ("alpha notes")), (("b"), ("beta news"))]⟩

def dbC5 : DB := ⟨[bwArch, bw1], [(("z"), ("old")), (("a"), ("alpha notes"))]⟩

/-- The per-row effect of `save`: the row with the saved id gets the new
content and updated_at; every other row, and every other field, is kept. -/
def updFn (id content : String) (ts : Int) (b : Buffer) : Buffer :=
  if b.id == id then { b with content := content, updated_at := ts } else b

/-! ### Helper lemmas -/

theorem find?_eq_head?_filter {α : Type} (p : α → Bool) (l : List α) :
    l.find? p = (l.filter p).head? := by
  induction l with
  | nil => rfl
  | cons a t ih =>
    by_cases h : p a
    · rw [List.find?_cons_of_pos t h, List.filter_cons_of_pos h, List.head?_cons]
    · rw [List.find?_cons_of_neg t h, List.filter_cons_of_neg h, ih]

theorem after_title_find {α : Type} (q : α → Bool) (l : List α) :
    ((l.dropWhile q).drop 1).find? (fun a => !q a) =
      (l.filter (fun a => !q a))[1]? := by
  induction l with
  | nil => rfl
  | cons a t ih =>
    by_cases h : q a
    · rw [List.dropWhile_cons, if_pos h, List.filter_cons_of_neg (by simp [h])]
      exact ih
    · rw [List.dropWhile_cons, if_neg h, List.filter_cons_of_pos (by simp [h])]
      simp only [List.drop_succ_cons, List.drop_zero, List.getElem?_cons_succ]
      rw [find?_eq_head?_filter, List.head?_eq_getElem?]

theorem minOr0_le {l : List Int} {x : Int} (hx : x ∈ l) : Queries.minOr0 l ≤ x := by
  induction l with
  | nil => cases hx
  | cons a t ih =>
    cases t with
    | nil =>
      rcases List.mem_cons.mp hx with h | h
      · simp [Queries.minOr0, h]
      · cases h
    | cons b u =>
      rcases List.mem_cons.mp hx with h | h
      · subst h
        exact min_le_left _ _
      · exact le_trans (min_le_right _ _) (ih h)

theorem byteLen_append (s t : String) : byteLen (s ++ t) = byteLen s + byteLen t := by
  simp [byteLen, String.data_append]

theorem byteLen_dblN (n : Nat) (s : String) :
    byteLen (dblN n s) = 2 ^ n * byteLen s := by
  induction n with
  | zero => simp [dblN]
  | succ n ih =>
    simp [dblN, dblStr, byteLen_append, ih]
    ring

theorem byteLen_bigContent : byteLen bigContent = 16777216 := by
  rw [bigContent, byteLen_dblN]
  decide

theorem filterMap_if {α β : Type} (c : α → Bool) (h : α → β) (l : List α) :
    l.filterMap (fun a => if c a then none else some (h a)) =
      (l.filter (fun a => ¬ c a)).map h := by
  induction l with
  | nil => rfl
  | cons a t ih => by_cases hc : c a <;> simp [List.filterMap_cons, List.filter_cons, hc, ih]

theorem filterMap_congr_mem {α β : Type} {f g : α → Option β} {l : List α}
    (h : ∀ a ∈ l, f a = g a) : l.filterMap f = l.filterMap g := by
  induction l with
  | nil => rfl
  | cons a t ih =>
    have ha := h a (List.mem_cons_self a t)
    simp [List.filterMap_cons, ha, ih (fun b hb => h b (List.mem_cons_of_mem a hb))]

theorem find?_id_self {l : List Buffer} (hnd : (l.map (fun b => b.id)).Nodup)
    {b : Buffer} (hb : b ∈ l) : l.find? (fun r => r.id == b.id) = some b := by
  induction l with
  | nil => cases hb
  | cons a t ih =>
    rw [List.map_cons, List.nodup_cons] at hnd
    obtain ⟨ha, ht⟩ := hnd
    rcases List.mem_cons.mp hb with h | h
    · subst h
      simp [List.find?_cons]
    · have hne : ¬ a.id = b.id := by
        intro he
        exact ha (he ▸ List.mem_map_of_mem (fun b => b.id) h)
      simp [List.find?_cons, hne, ih ht h]

/-! ### Claim theorems -/

/-- C4: for every content string, the derived title is the first non-blank
line, trimmed and truncated to 100 characters, or "Untitled" if there is no
non-blank line; the derived preview is the next non-blank line after the
title line, same treatment, or empty if there is none; in particular
"\nHello\nWorld\n" gives ("Hello", "World") and "" gives ("Untitled", ""). -/
theorem title_preview_derivation :
    (∀ content : String,
        Queries.extract_title_preview content = spec_title_preview content)
    ∧ Queries.extract_title_preview ("\nHello\nWorld\n") = (("Hello"), ("World"))
    ∧ Queries.extract_title_preview ("") = (("Untitled"), ("")) := by
  refine ⟨fun content => ?_, by decide, by decide⟩
  simp only [Queries.extract_title_preview, spec_title_preview]
  rw [find?_eq_head?_filter, after_title_find]

/-- C2: content over 10 MiB is rejected by both create and save with the
size-stating error message, before any write: the state is returned
unchanged and a subsequent sidebar listing is identical. -/
theorem size_limit_rejected (db : DB) (id id2 : String) (ts : Int)
    (content : String) (h : byteLen content > Commands.MAX_BUFFER_SIZE) :
    Commands.create_buffer db id ts content =
      (Except.error (Commands.sizeErrMsg (byteLen content)), db)
    ∧ Commands.save_buffer db id2 content ts =
      (Except.error (Commands.sizeErrMsg (byteLen content)), db)
    ∧ Queries.get_sidebar_buffers (Commands.create_buffer db id ts content).2 100 0 =
      Queries.get_sidebar_buffers db 100 0 := by
  have hv : Commands.validate_buffer_size content =
      Except.error (Commands.sizeErrMsg (byteLen content)) := by
    unfold Commands.validate_buffer_size
    rw [if_pos h]
  refine ⟨?_, ?_, ?_⟩
  · unfold Commands.create_buffer
    rw [hv]
  · unfold Commands.save_buffer
    rw [hv]
  · unfold Commands.create_buffer
    rw [hv]

theorem size_limit_rejected_witness :
    byteLen bigContent > Commands.MAX_BUFFER_SIZE
    ∧ Commands.create_buffer ⟨[], []⟩ ("x") 0 bigContent =
      (Except.error (Commands.sizeErrMsg (byteLen bigContent)), (⟨[], []⟩ : DB))
    ∧ Commands.save_buffer ⟨[], []⟩ ("x") bigContent 0 =
      (Except.error (Commands.sizeErrMsg (byteLen bigContent)), (⟨[], []⟩ : DB)) := by
  have h : byteLen bigContent > Commands.MAX_BUFFER_SIZE := by
    rw [byteLen_bigContent]
    decide
  exact ⟨h, (size_limit_rejected ⟨[], []⟩ ("x") ("x") 0 bigContent h).1,
    (size_limit_rejected ⟨[], []⟩ ("x") ("x") 0 bigContent h).2.1⟩

/-- C10: saving an id absent from the buffers table silently succeeds,
returning the title/preview derived from the given content, and leaves the
database state unchanged. -/
theorem save_nonexistent_ok (db : DB) (id content : String) (ts : Int)
    (hid : ∀ b ∈ db.buffers, ¬ b.id = id)
    (hsz : byteLen content ≤ Commands.MAX_BUFFER_SIZE) :
    Commands.save_buffer db id content ts =
      (Except.ok (Queries.extract_title_preview content), db) := by
  have hv : Commands.validate_buffer_size content = Except.ok () := by
    unfold Commands.validate_buffer_size
    rw [if_neg (Nat.not_lt.mpr hsz)]
  have hf : db.buffers.find? (fun b => b.id == id) = none :=
    List.find?_eq_none.mpr (fun b hb => by simpa using hid b hb)
  unfold Commands.save_buffer
  rw [hv]
  unfold Queries.update_buffer_content
  rw [hf]

theorem save_nonexistent_ok_witness :
    (∀ b ∈ dbW.buffers, ¬ b.id = ("c"))
    ∧ Commands.save_buffer dbW ("c") ("a note") 9 =
      (Except.ok (Queries.extract_title_preview ("a note")), dbW) := by
  have h1 : ∀ b ∈ dbW.buffers, ¬ b.id = ("c") := by decide
  exact ⟨h1, save_nonexistent_ok dbW ("c") ("a note") 9 h1 (by decide)⟩

/-- C9: for every saved content within the size limit, save rewrites the
buffers table as a per-row map that changes only the matching row's content
and updated_at, keeps its id, accessed_at, sort_order, created_at,
is_pinned and is_archived, and leaves every non-matching row identical. -/
theorem save_frame_effect (db : DB) (id content : String) (ts : Int)
    (hsz : byteLen content ≤ Commands.MAX_BUFFER_SIZE) :
    (Commands.save_buffer db id content ts).2.buffers =
      db.buffers.map (updFn id content ts)
    ∧ (∀ b : Buffer, (updFn id content ts b).id = b.id
        ∧ (updFn id content ts b).accessed_at = b.accessed_at
        ∧ (updFn id content ts b).sort_order = b.sort_order
        ∧ (updFn id content ts b).created_at = b.created_at
        ∧ (updFn id content ts b).is_pinned = b.is_pinned
        ∧ (updFn id content ts b).is_archived = b.is_archived)
    ∧ (∀ b : Buffer, ¬ b.id = id → updFn id content ts b = b)
    ∧ (∀ b : Buffer, b.id = id →
        (updFn id content ts b).content = content
        ∧ (updFn id content ts b).updated_at = ts) := by
  have hv : Commands.validate_buffer_size content = Except.ok () := by
    unfold Commands.validate_buffer_size
    rw [if_neg (Nat.not_lt.mpr hsz)]
  refine ⟨?_, ?_, ?_, ?_⟩
  · unfold Commands.save_buffer Queries.update_buffer_content
    rw [hv]
    rcases hfind : db.buffers.find? (fun b => b.id == id) with _ | b0 <;>
      rw [hfind]
    · have hnone : ∀ b ∈ db.buffers, ¬ b.id = id := by
        intro b hb
        have := List.find?_eq_none.mp hfind b hb
        simpa using this
      have heq : db.buffers.map (updFn id content ts) = db.buffers := by
        have h1 : db.buffers.map (updFn id content ts) =
            db.buffers.map (fun b => b) :=
          List.map_congr_left (fun b hb => by
            unfold updFn
            rw [if_neg (by simpa using hnone b hb)])
        rw [h1, List.map_id']
      exact heq.symm
    · rfl
  · intro b
    unfold updFn
    by_cases h : b.id == id <;> simp [h]
  · intro b hb
    unfold updFn
    rw [if_neg (by simpa using hb)]
  · intro b hb
    unfold updFn
    rw [if_pos (by simpa using hb)]
    exact ⟨rfl, rfl⟩

theorem save_frame_effect_witness :
    (Commands.save_buffer dbW ("a") ("fresh text") 9).2.buffers =
      dbW.buffers.map (updFn ("a") ("fresh text") 9)
    ∧ (∀ b : Buffer, (updFn ("a") ("fresh text") 9 b).id = b.id
        ∧ (updFn ("a") ("fresh text") 9 b).accessed_at = b.accessed_at
        ∧ (updFn ("a") ("fresh text") 9 b).sort_order = b.sort_order
        ∧ (updFn ("a") ("fresh text") 9 b).created_at = b.created_at
        ∧ (updFn ("a") ("fresh text") 9 b).is_pinned = b.is_pinned
        ∧ (updFn ("a") ("fresh text") 9 b).is_archived = b.is_archived)
    ∧ (∀ b : Buffer, ¬ b.id = ("a") → updFn ("a") ("fresh text") 9 b = b)
    ∧ (∀ b : Buffer, b.id = ("a") →
        (updFn ("a") ("fresh text") 9 b).content = ("fresh text")
        ∧ (updFn ("a") ("fresh text") 9 b).updated_at = 9) :=
  save_frame_effect dbW ("a") ("fresh text") 9 (by decide)

/-- C5 counterexample: in a state holding an archived row with sort_order -5
and a non-archived row with sort_order 0, create assigns the new row
sort_order -1 (the minimum over non-archived rows minus one), not -6 (the
minimum over all existing rows minus one), and the new row does not sort
before the archived row. -/
theorem create_sort_order_cex :
    ((Queries.create_buffer dbC5 ("n") ("x") 0).buffers.getLast?).map
        (fun b => b.sort_order) = some (-1)
    ∧ Queries.minOr0 (dbC5.buffers.map (fun b => b.sort_order)) - 1 = -6
    ∧ bwArch ∈ dbC5.buffers ∧ bwArch.sort_order < -1
    ∧ ¬ ((-1 : Int) = -6) := by decide

/-- C5 (amended): a buffer created by create receives sort_order equal to
the minimum sort_order among existing non-archived buffers (taken as 0 when
there are none) minus 1, so it sorts before every existing non-archived row
in manual order, without renumbering any existing row. -/
theorem create_sort_order_amended (db : DB) (id content : String) (ts : Int) :
    Queries.create_buffer db id content ts =
      ⟨db.buffers ++ [⟨id, content, ts, ts, ts, false, false,
          Queries.minOr0 ((db.buffers.filter (fun b => !b.is_archived)).map
            (fun b => b.sort_order)) - 1⟩],
        db.fts ++ [(id, content)]⟩
    ∧ ∀ b ∈ db.buffers, ¬ b.is_archived →
        Queries.minOr0 ((db.buffers.filter (fun b => !b.is_archived)).map
          (fun b => b.sort_order)) - 1 < b.sort_order := by
  constructor
  · rfl
  · intro b hb hbarch
    have hmem : b.sort_order ∈ (db.buffers.filter (fun b => !b.is_archived)).map
        (fun b => b.sort_order) :=
      List.mem_map_of_mem _ (List.mem_filter.mpr ⟨hb, by simp [hbarch]⟩)
    have := minOr0_le hmem
    omega

theorem create_sort_order_amended_witness :
    Queries.create_buffer dbC5 ("n") ("x") 0 =
      ⟨dbC5.buffers ++ [⟨("n"), ("x"), 0, 0, 0, false, false,
          Queries.minOr0 ((dbC5.buffers.filter (fun b => !b.is_archived)).map
            (fun b => b.sort_order)) - 1⟩],
        dbC5.fts ++ [(("n"), ("x"))]⟩
    ∧ ∀ b ∈ dbC5.buffers, ¬ b.is_archived →
        Queries.minOr0 ((dbC5.buffers.filter (fun b => !b.is_archived)).map
          (fun b => b.sort_order)) - 1 < b.sort_order :=
  create_sort_order_amended dbC5 ("n") ("x") 0

/-! ### Ordering lemmas for the sidebar sort -/

theorem insertLe_perm (le : Buffer → Buffer → Bool) (a : Buffer) (l : List Buffer) :
    (Queries.insertLe le a l).Perm (a :: l) := by
  induction l with
  | nil => exact List.Perm.refl _
  | cons b t ih =>
    unfold Queries.insertLe
    by_cases h : le a b
    · rw [if_pos h]
    · rw [if_neg h]
      exact (ih.cons b).trans (List.Perm.swap a b t)

theorem sortLe_perm (le : Buffer → Buffer → Bool) (l : List Buffer) :
    (Queries.sortLe le l).Perm l := by
  induction l with
  | nil => exact List.Perm.refl _
  | cons a t ih =>
    exact (insertLe_perm le a (Queries.sortLe le t)).trans (ih.cons a)

theorem pairwise_insertLe (le : Buffer → Buffer → Bool)
    (htr : ∀ x y z : Buffer, le x y = true → le y z = true → le x z = true)
    (hto : ∀ x y : Buffer, le x y = true ∨ le y x = true)
    (a : Buffer) (l : List Buffer)
    (h : l.Pairwise (fun x y => le x y = true)) :
    (Queries.insertLe le a l).Pairwise (fun x y => le x y = true) := by
  induction l with
  | nil => simp [Queries.insertLe]
  | cons b t ih =>
    rw [List.pairwise_cons] at h
    obtain ⟨hb, ht⟩ := h
    unfold Queries.insertLe
    by_cases hab : le a b
    · rw [if_pos hab]
      refine List.Pairwise.cons ?_ (List.Pairwise.cons hb ht)
      intro c hc
      rcases List.mem_cons.mp hc with rfl | hc
      · exact hab
      · exact htr a b c hab (hb c hc)
    · rw [if_neg hab]
      have hba : le b a = true := by
        rcases hto a b with h1 | h1
        · exact absurd h1 hab
        · exact h1
      refine List.Pairwise.cons ?_ (ih ht)
      intro c hc
      rcases List.mem_cons.mp ((insertLe_perm le a t).mem_iff.mp hc) with rfl | hc2
      · exact hba
      · exact hb c hc2

theorem pairwise_sortLe (le : Buffer → Buffer → Bool)
    (htr : ∀ x y z : Buffer, le x y = true → le y z = true → le x z = true)
    (hto : ∀ x y : Buffer, le x y = true ∨ le y x = true)
    (l : List Buffer) :
    (Queries.sortLe le l).Pairwise (fun x y => le x y = true) := by
  induction l with
  | nil => exact List.Pairwise.nil
  | cons a t ih => exact pairwise_insertLe le htr hto a _ ih

theorem tripleLe_total (x y : Int × Int × Int) :
    Queries.tripleLe x y = true ∨ Queries.tripleLe y x = true := by
  unfold Queries.tripleLe
  simp only [Bool.or_eq_true, Bool.and_eq_true, decide_eq_true_eq]
  omega

theorem tripleLe_trans (x y z : Int × Int × Int)
    (h1 : Queries.tripleLe x y = true) (h2 : Queries.tripleLe y z = true) :
    Queries.tripleLe x z = true := by
  unfold Queries.tripleLe at h1 h2 ⊢
  simp only [Bool.or_eq_true, Bool.and_eq_true, decide_eq_true_eq] at h1 h2 ⊢
  omega

theorem sidebarLe_total (a b : Buffer) :
    Queries.sidebarLe a b = true ∨ Queries.sidebarLe b a = true :=
  tripleLe_total _ _

theorem sidebarLe_trans (a b c : Buffer) (h1 : Queries.sidebarLe a b = true)
    (h2 : Queries.sidebarLe b c = true) : Queries.sidebarLe a c = true :=
  tripleLe_trans _ _ _ h1 h2

/-- C6: the sidebar listing is the (offset, limit) page of the summaries of
exactly the non-archived buffers, sorted pinned first, then sort_order
ascending, then accessed_at descending; each summary carries id, derived
title and preview, updated_at and is_pinned. -/
theorem sidebar_listing (db : DB) (limit offset : Nat) :
    Queries.get_sidebar_buffers db limit offset =
      (((Queries.sortLe Queries.sidebarLe
          (db.buffers.filter (fun b => !b.is_archived))).drop offset).take
        limit).map Queries.summarize
    ∧ (Queries.sortLe Queries.sidebarLe
        (db.buffers.filter (fun b => !b.is_archived))).Perm
      (db.buffers.filter (fun b => !b.is_archived))
    ∧ (Queries.sortLe Queries.sidebarLe
        (db.buffers.filter (fun b => !b.is_archived))).Pairwise
      (fun x y => Queries.sidebarLe x y = true)
    ∧ ∀ b : Buffer, Queries.summarize b =
        ⟨b.id, (Queries.extract_title_preview b.content).1,
          (Queries.extract_title_preview b.content).2, b.updated_at,
          b.is_pinned⟩ :=
  ⟨rfl, sortLe_perm _ _,
    pairwise_sortLe _ sidebarLe_trans sidebarLe_total _, fun _ => rfl⟩

/-- C8: delete returns a replacement id chosen, before the delete executes,
by the sidebar ordering over non-archived buffers excluding the deleted id;
the replacement is never the deleted id, and it is non-null whenever a
non-archived buffer remains after the delete. -/
theorem delete_replacement (db : DB) (id : String) :
    (Commands.delete_buffer db id).1 = Queries.get_next_buffer_id db id
    ∧ ¬ (Commands.delete_buffer db id).1 = some id
    ∧ ((Commands.delete_buffer db id).2.buffers.any
          (fun b => !b.is_archived) = true →
        ((Commands.delete_buffer db id).1).isSome = true) := by
  refine ⟨rfl, ?_, ?_⟩
  · unfold Commands.delete_buffer Queries.get_next_buffer_id
    intro hsome
    rcases hs : Queries.sortLe Queries.sidebarLe (db.buffers.filter
        (fun b => !b.is_archived && !(b.id == id))) with _ | ⟨b, rest⟩
    · rw [hs] at hsome
      cases hsome
    · rw [hs] at hsome
      have hbid : b.id = id := by simpa using hsome
      have hmem : b ∈ db.buffers.filter
          (fun b => !b.is_archived && !(b.id == id)) :=
        (sortLe_perm _ _).mem_iff.mp (hs ▸ List.mem_cons_self b rest)
      have := (List.mem_filter.mp hmem).2
      simp [hbid] at this
  · intro hany
    rw [List.any_eq_true] at hany
    obtain ⟨b, hb, hbarch⟩ := hany
    have hb' : b ∈ db.buffers.filter (fun b => !(b.id == id)) := hb
    rw [List.mem_filter] at hb'
    obtain ⟨hbmem, hbid⟩ := hb'
    have hmem2 : b ∈ db.buffers.filter
        (fun b => !b.is_archived && !(b.id == id)) :=
      List.mem_filter.mpr ⟨hbmem, by simp_all⟩
    unfold Commands.delete_buffer Queries.get_next_buffer_id
    rcases hs : Queries.sortLe Queries.sidebarLe (db.buffers.filter
        (fun b => !b.is_archived && !(b.id == id))) with _ | ⟨b2, rest⟩
    · have hperm := sortLe_perm Queries.sidebarLe (db.buffers.filter
        (fun b => !b.is_archived && !(b.id == id)))
      rw [hs] at hperm
      have := hperm.symm.eq_nil
      rw [this] at hmem2
      cases hmem2
    · simp

theorem delete_replacement_witness :
    (Commands.delete_buffer dbW ("b")).1 = Queries.get_next_buffer_id dbW ("b")
    ∧ ¬ (Commands.delete_buffer dbW ("b")).1 = some ("b")
    ∧ ((Commands.delete_buffer dbW ("b")).2.buffers.any
          (fun b => !b.is_archived) = true →
        ((Commands.delete_buffer dbW ("b")).1).isSome = true) :=
  delete_replacement dbW ("b")

theorem find?_map_id_pred (g : Buffer → Buffer) (hg : ∀ b, (g b).id = b.id)
    (l : List Buffer) (id : String) :
    (l.map g).find? (fun b => b.id == id) =
      (l.find? (fun b => b.id == id)).map g := by
  induction l with
  | nil => rfl
  | cons a t ih =>
    by_cases h : a.id == id
    · rw [List.map_cons, List.find?_cons_of_pos _ (by rw [hg]; exact h),
        List.find?_cons_of_pos t h]
      rfl
    · rw [List.map_cons, List.find?_cons_of_neg _ (by rw [hg]; exact h),
        List.find?_cons_of_neg t h, ih]

/-- C3: for every content within the size limit and a fresh id, create
followed by get on the returned id yields exactly that content (get first
touches accessed_at, which leaves content untouched). -/
theorem create_then_get (db : DB) (id content : String) (ts ts2 : Int)
    (hfresh : ∀ b ∈ db.buffers, ¬ b.id = id)
    (hsz : byteLen content ≤ Commands.MAX_BUFFER_SIZE) :
    (Commands.get_buffer_content
        (Commands.create_buffer db id ts content).2 id ts2).1 =
      Except.ok content := by
  have hv : Commands.validate_buffer_size content = Except.ok () := by
    unfold Commands.validate_buffer_size
    rw [if_neg (Nat.not_lt.mpr hsz)]
  have hcr : (Commands.create_buffer db id ts content).2 =
      Queries.create_buffer db id content ts := by
    unfold Commands.create_buffer
    rw [hv]
  obtain ⟨row, hrid, hrcontent, hrow⟩ :
      ∃ row : Buffer, row.id = id ∧ row.content = content ∧
        Queries.create_buffer db id content ts =
          ⟨db.buffers ++ [row], db.fts ++ [(id, content)]⟩ :=
    ⟨_, rfl, rfl, rfl⟩
  have hfind0 : db.buffers.find? (fun b => b.id == id) = none :=
    List.find?_eq_none.mpr (fun b hb => by simpa using hfresh b hb)
  have hfind : (db.buffers ++ [row]).find? (fun b => b.id == id) = some row := by
    rw [List.find?_append, hfind0]
    simp [List.find?_cons, hrid]
  have hg : ∀ b : Buffer,
      ((fun b : Buffer =>
          if b.id == id then { b with accessed_at := ts2 } else b) b).id =
        b.id := by
    intro b
    by_cases h : b.id == id <;> simp [h]
  rw [hcr, hrow]
  simp only [Commands.get_buffer_content, Queries.touch_buffer]
  rw [hfind]
  simp only [Queries.get_buffer_content]
  rw [find?_map_id_pred _ hg _ id, hfind]
  simp [hrid, hrcontent]

theorem create_then_get_witness :
    (∀ b ∈ dbW.buffers, ¬ b.id = ("c"))
    ∧ (Commands.get_buffer_content
        (Commands.create_buffer dbW ("c") 7 ("hello")).2 ("c") 9).1 =
      Except.ok ("hello") := by
  have h1 : ∀ b ∈ dbW.buffers, ¬ b.id = ("c") := by decide
  exact ⟨h1, create_then_get dbW ("c") ("hello") 7 9 h1 (by decide)⟩

theorem nodup_split_ids {l1 l2 : List Buffer} {b0 : Buffer}
    (hnd : ((l1 ++ b0 :: l2).map (fun b => b.id)).Nodup) :
    (∀ b ∈ l1, ¬ b.id = b0.id) ∧ (∀ b ∈ l2, ¬ b.id = b0.id) := by
  rw [List.map_append, List.map_cons, List.nodup_append] at hnd
  obtain ⟨-, hnd2, hdisj⟩ := hnd
  constructor
  · intro b hb he
    exact hdisj (List.mem_map_of_mem _ hb) (by simp [he])
  · intro b hb he
    rw [List.nodup_cons] at hnd2
    exact hnd2.1 (he ▸ List.mem_map_of_mem _ hb)

theorem fts_replace_perm (l1 l2 : List Buffer) (b0 : Buffer)
    (fts : List (String × String)) (id c : String) (upd : Buffer → Buffer)
    (hperm : fts.Perm ((l1 ++ b0 :: l2).map (fun b => (b.id, b.content))))
    (hnd : ((l1 ++ b0 :: l2).map (fun b => b.id)).Nodup)
    (hb0 : b0.id = id)
    (hupd0 : (fun b => (b.id, b.content)) (upd b0) = (id, c))
    (hupd : ∀ b : Buffer, ¬ b.id = id → upd b = b) :
    (fts.filter (fun e => !(e.1 == id)) ++ [(id, c)]).Perm
      (((l1 ++ b0 :: l2).map upd).map (fun b => (b.id, b.content))) := by
  obtain ⟨hne1, hne2⟩ := nodup_split_ids hnd
  rw [hb0] at hne1 hne2
  have e1 : (l1.map (fun b => (b.id, b.content))).filter
      (fun e => !(e.1 == id)) = l1.map (fun b => (b.id, b.content)) :=
    List.filter_eq_self.mpr (fun x hx => by
      obtain ⟨b, hb, rfl⟩ := List.mem_map.mp hx
      simpa using hne1 b hb)
  have e2 : (l2.map (fun b => (b.id, b.content))).filter
      (fun e => !(e.1 == id)) = l2.map (fun b => (b.id, b.content)) :=
    List.filter_eq_self.mpr (fun x hx => by
      obtain ⟨b, hb, rfl⟩ := List.mem_map.mp hx
      simpa using hne2 b hb)
  have hstep : (fts.filter (fun e => !(e.1 == id))).Perm
      ((l1.map (fun b => (b.id, b.content))) ++
        l2.map (fun b => (b.id, b.content))) := by
    have h1 := hperm.filter (fun e => !(e.1 == id))
    rw [List.map_append, List.map_cons, List.filter_append,
      List.filter_cons_of_neg (by simp [hb0]), e1, e2] at h1
    exact h1
  have hrhs : ((l1 ++ b0 :: l2).map upd).map (fun b => (b.id, b.content)) =
      (l1.map (fun b => (b.id, b.content))) ++
        ((id, c) :: l2.map (fun b => (b.id, b.content))) := by
    rw [List.map_map, List.map_append, List.map_cons]
    congr 1
    · exact List.map_congr_left (fun b hb => by
        simp only [Function.comp_apply, hupd b (hne1 b hb)])
    · congr 1
      exact List.map_congr_left (fun b hb => by
        simp only [Function.comp_apply, hupd b (hne2 b hb)])
  rw [hrhs]
  refine (hstep.append_right _).trans ?_
  rw [List.append_assoc]
  exact List.Perm.append_left _ (List.perm_append_singleton _ _)

/-- C1: the shadow index stays in lockstep with the buffers table across the
trigger-maintained mutations: inserting a row (create), rewriting content
(save), rewriting accessed_at (the touch performed by get, also an UPDATE),
and deleting a row each preserve the exact correspondence between index
entries and row contents, so a subsequent search reads its own writes. -/
theorem fts_lockstep (db : DB) (id content : String) (ts : Int)
    (hs : ftsSync db) (hnd : idsNodup db) :
    ftsSync (Queries.create_buffer db id content ts)
    ∧ ftsSync (Queries.update_buffer_content db id content ts).1
    ∧ ftsSync (Queries.touch_buffer db id ts).1
    ∧ ftsSync (Queries.delete_buffer db id).1 := by
  refine ⟨?_, ?_, ?_, ?_⟩
  · show (db.fts ++ [(id, content)]).Perm
      ((db.buffers ++ [(⟨id, content, ts, ts, ts, false, false,
          Queries.minOr0 ((db.buffers.filter (fun b => !b.is_archived)).map
            (fun b => b.sort_order)) - 1⟩ : Buffer)]).map
        (fun b => (b.id, b.content)))
    rw [List.map_append]
    exact List.Perm.append_right _ hs
  · unfold Queries.update_buffer_content
    rcases hfind : db.buffers.find? (fun b => b.id == id) with _ | b0
    · rw [hfind]
      exact hs
    · rw [hfind]
      have hb0id : b0.id = id := by simpa using List.find?_some hfind
      have hmem : b0 ∈ db.buffers := List.mem_of_find?_eq_some hfind
      obtain ⟨l1, l2, hsplit⟩ := List.append_of_mem hmem
      show (db.fts.filter (fun e => !(e.1 == id)) ++ [(id, content)]).Perm
        ((db.buffers.map (fun b =>
            if b.id == id then { b with content := content, updated_at := ts }
            else b)).map (fun b => (b.id, b.content)))
      have hs' : db.fts.Perm (db.buffers.map (fun b => (b.id, b.content))) := hs
      rw [hsplit] at hs'
      have hnd' : ((l1 ++ b0 :: l2).map (fun b => b.id)).Nodup := by
        rw [← hsplit]
        exact hnd
      rw [hsplit]
      exact fts_replace_perm l1 l2 b0 db.fts id content _ hs' hnd' hb0id
        (by simp [hb0id]) (fun b hb => by simp [hb])
  · unfold Queries.touch_buffer
    rcases hfind : db.buffers.find? (fun b => b.id == id) with _ | b0
    · rw [hfind]
      exact hs
    · rw [hfind]
      have hb0id : b0.id = id := by simpa using List.find?_some hfind
      have hmem : b0 ∈ db.buffers := List.mem_of_find?_eq_some hfind
      obtain ⟨l1, l2, hsplit⟩ := List.append_of_mem hmem
      show (db.fts.filter (fun e => !(e.1 == id)) ++ [(id, b0.content)]).Perm
        ((db.buffers.map (fun b =>
            if b.id == id then { b with accessed_at := ts } else b)).map
          (fun b => (b.id, b.content)))
      have hs' : db.fts.Perm (db.buffers.map (fun b => (b.id, b.content))) := hs
      rw [hsplit] at hs'
      have hnd' : ((l1 ++ b0 :: l2).map (fun b => b.id)).Nodup := by
        rw [← hsplit]
        exact hnd
      rw [hsplit]
      exact fts_replace_perm l1 l2 b0 db.fts id b0.content _ hs' hnd' hb0id
        (by simp [hb0id]) (fun b hb => by simp [hb])
  · show (db.fts.filter (fun e => !(e.1 == id))).Perm
      ((db.buffers.filter (fun b => !(b.id == id))).map
        (fun b => (b.id, b.content)))
    have h1 := hs.filter (fun e => !(e.1 == id))
    rw [List.filter_map] at h1
    exact h1

theorem fts_lockstep_witness :
    ftsSync dbW ∧ idsNodup dbW
    ∧ (ftsSync (Queries.create_buffer dbW ("a") ("y") 8)
      ∧ ftsSync (Queries.update_buffer_content dbW ("a") ("y") 8).1
      ∧ ftsSync (Queries.touch_buffer dbW ("a") 8).1
      ∧ ftsSync (Queries.delete_buffer dbW ("a")).1) := by
  have h1 : ftsSync dbW := by
    unfold ftsSync
    decide
  have h2 : idsNodup dbW := by
    unfold idsNodup
    decide
  exact ⟨h1, h2, fts_lockstep dbW ("a") ("y") 8 h1 h2⟩

theorem search_join_eq (bs : List Buffer) (l : List Buffer)
    (terms : List (List Char)) (hnd : (bs.map (fun b => b.id)).Nodup)
    (hsub : ∀ b ∈ l, b ∈ bs) :
    ((l.map (fun b => (b.id, b.content))).filter
        (fun e => ftsMatch terms e.2)).filterMap
      (fun e => (bs.find? (fun b => b.id == e.1)).bind (fun b =>
        if b.is_archived then none else some ⟨b.id, e.2, b.updated_at⟩)) =
    (l.filter (fun b => !b.is_archived && ftsMatch terms b.content)).map
      (fun b => (⟨b.id, b.content, b.updated_at⟩ : SearchResult)) := by
  induction l with
  | nil => rfl
  | cons a t ih =>
    have ha : a ∈ bs := hsub a (List.mem_cons_self a t)
    have iht := ih (fun b hb => hsub b (List.mem_cons_of_mem a hb))
    rw [List.map_cons]
    by_cases hm : ftsMatch terms a.content
    · rw [List.filter_cons_of_pos (by simpa using hm), List.filterMap_cons]
      have hfa : ((bs.find? (fun b => b.id == (a.id, a.content).1)).bind
          (fun b => if b.is_archived then none
            else some (⟨b.id, (a.id, a.content).2, b.updated_at⟩ :
              SearchResult))) =
          if a.is_archived then none
          else some ⟨a.id, a.content, a.updated_at⟩ := by
        have h0 : bs.find? (fun b => b.id == (a.id, a.content).1) = some a :=
          find?_id_self hnd ha
        rw [h0]
        rfl
      by_cases harch : a.is_archived
      · rw [hfa, if_pos harch, List.filter_cons_of_neg (by simp [harch])]
        exact iht
      · rw [hfa, if_neg harch,
          List.filter_cons_of_pos (by simp [harch, hm]), List.map_cons]
        exact congrArg (List.cons _) iht
    · rw [List.filter_cons_of_neg (by simpa using hm),
        List.filter_cons_of_neg (by simp [hm])]
      exact iht

/-- C7: a blank query yields no results; the sanitizer doubles internal
quotes, splits on whitespace, quotes each term with a prefix-wildcard star
and joins with spaces (implicit AND), so the query "foo bar" denotes the
terms foo and bar; and over a lockstep index a non-blank search returns
exactly the non-archived buffers whose content contains every term as a
token prefix, whenever they fit in the result limit. -/
theorem search_semantics (db : DB) (q : String) (limit : Nat) :
    (isBlankL q.data = true → Queries.search_buffers db q limit = [])
    ∧ safeQuery ("foo bar") = ("\"foo\"* \"bar\"*")
    ∧ queryTerms ("foo bar") = [['f', 'o', 'o'], ['b', 'a', 'r']]
    ∧ (isBlankL q.data = false → ftsSync db → idsNodup db →
        (db.buffers.filter (fun b =>
            !b.is_archived && ftsMatch (queryTerms q) b.content)).length ≤
          limit →
        ((Queries.search_buffers db q limit).map (fun r => r.id)).Perm
          ((db.buffers.filter (fun b =>
              !b.is_archived && ftsMatch (queryTerms q) b.content)).map
            (fun b => b.id))) := by
  refine ⟨?_, by decide, by decide, ?_⟩
  · intro h
    simp [Queries.search_buffers, h]
  · intro hq hsync hnd hcount
    have hkey : Queries.search_buffers db q limit =
        ((db.fts.filter (fun e => ftsMatch (queryTerms q) e.2)).filterMap
          (fun e => (db.buffers.find? (fun b => b.id == e.1)).bind (fun b =>
            if b.is_archived then none
            else some ⟨b.id, e.2, b.updated_at⟩))).take limit := by
      unfold Queries.search_buffers
      rw [if_neg (by simp [hq])]
    have hperm : ((db.fts.filter
        (fun e => ftsMatch (queryTerms q) e.2)).filterMap
        (fun e => (db.buffers.find? (fun b => b.id == e.1)).bind (fun b =>
          if b.is_archived then none
          else some ⟨b.id, e.2, b.updated_at⟩))).Perm
        ((db.buffers.filter (fun b =>
            !b.is_archived && ftsMatch (queryTerms q) b.content)).map
          (fun b => (⟨b.id, b.content, b.updated_at⟩ : SearchResult))) := by
      refine (List.Perm.filterMap _ (hsync.filter
        (fun e => ftsMatch (queryTerms q) e.2))).trans ?_
      exact List.Perm.of_eq (search_join_eq db.buffers db.buffers
        (queryTerms q) hnd (fun b hb => hb))
    rw [hkey, List.take_of_length_le (by
      rw [hperm.length_eq, List.length_map]
      exact hcount)]
    refine (hperm.map _).trans (List.Perm.of_eq ?_)
    rw [List.map_map]
    exact List.map_congr_left (fun b h => rfl)

theorem search_semantics_witness :
    (isBlankL ((" ") : String).data = true
      ∧ Queries.search_buffers dbW (" ") 20 = [])
    ∧ (isBlankL (("alp") : String).data = false ∧ ftsSync dbW ∧ idsNodup dbW
      ∧ (dbW.buffers.filter (fun b =>
          !b.is_archived && ftsMatch (queryTerms ("alp")) b.content)).length ≤ 20
      ∧ ((Queries.search_buffers dbW ("alp") 20).map (fun r => r.id)).Perm
          ((dbW.buffers.filter (fun b =>
              !b.is_archived && ftsMatch (queryTerms ("alp")) b.content)).map
            (fun b => b.id))) := by
  have hsync : ftsSync dbW := by
    unfold ftsSync
    decide
  have hnd : idsNodup dbW := by
    unfold idsNodup
    decide
  exact ⟨⟨by decide, (search_semantics dbW (" ") 20).1 (by decide)⟩,
    by decide, hsync, hnd, by decide,
    (search_semantics dbW ("alp") 20).2.2.2 (by decide) hsync hnd (by decide)⟩
